import Mathlib

/-!
# Verification of the expense-assistant core (`src/ollama/backend`)

A shallow embedding, in Lean 4, of the pure core of the repository's
expense pipeline: amount/category normalisation (`parsing.py`), money
formatting (`formatting.py`), the neighbour-prior corrector and the
per-message handling flow (`polling.py`), the query-intent parser
(`query/parser.py`), and the idempotent ledger (`storage.py`).

Strings are modelled as `List Char`; Python `float` values are modelled
as exact rationals (`ℚ`), with Python's `round(x, 2)` modelled as
round-half-to-even on rationals.  External services (LLM generation,
embedding, the vector index, SQLite) are modelled as explicit oracles /
explicit state so that the control flow around them stays faithful.
-/

namespace RagAssistant

/-! ## Basic character/string helpers (parsing.py) -/

/-- Python `str.isspace`-style whitespace recognised by `str.split()`
(restricted to the ASCII whitespace that can occur in the program's
inputs). -/
def isWs (c : Char) : Bool :=
  c = ' ' || c = '\t' || c = '\n' || c = '\r' || c = '\x0b' || c = '\x0c'

/-- Words for `" ".join(text.split())`: words of a string, splitting on whitespace
runs (helper for `collapse_spaces`).  `cur` is the reversed current word. -/
def pyWordsAux (cur : List Char) : List Char → List (List Char)
  | [] => if cur = [] then [] else [cur.reverse]
  | c :: cs =>
    if isWs c then
      if cur = [] then pyWordsAux [] cs else cur.reverse :: pyWordsAux [] cs
    else pyWordsAux (c :: cur) cs

/-- Embedding of `collapse_spaces` (parsing.py): `" ".join(text.split())`. -/
def collapse_spaces (s : List Char) : List Char :=
  List.intercalate [' '] (pyWordsAux [] s)

/-- Python `str.lower`, for the ASCII letters and the Latin-1 accented
letters this program can see (NFD-decomposable vowels and `ñ`). -/
def pyLowerChar (c : Char) : Char :=
  if c = 'Á' then 'á' else if c = 'É' then 'é' else if c = 'Í' then 'í'
  else if c = 'Ó' then 'ó' else if c = 'Ú' then 'ú' else if c = 'Ü' then 'ü'
  else if c = 'Ñ' then 'ñ' else c.toLower

/-- Embedding of `_strip_accents` (parsing.py): NFD normalisation followed by removal
of combining marks, modelled as a character map for the Latin letters in
the program's vocabulary (for them, NFD yields base letter + combining
mark, so stripping maps the letter to its base). -/
def stripAccentChar (c : Char) : Char :=
  if c = 'á' then 'a' else if c = 'é' then 'e' else if c = 'í' then 'i'
  else if c = 'ó' then 'o' else if c = 'ú' then 'u' else if c = 'ü' then 'u'
  else if c = 'ñ' then 'n'
  else if c = 'Á' then 'A' else if c = 'É' then 'E' else if c = 'Í' then 'I'
  else if c = 'Ó' then 'O' else if c = 'Ú' then 'U' else if c = 'Ü' then 'U'
  else if c = 'Ñ' then 'N' else c

def pyLower (s : List Char) : List Char := s.map pyLowerChar

def stripAccents (s : List Char) : List Char := s.map stripAccentChar

/-- Boolean prefix test on character lists. -/
def isPrefixList : List Char → List Char → Bool
  | [], _ => true
  | _ :: _, [] => false
  | p :: ps, s :: ss => p == s && isPrefixList ps ss

/-- Python `pattern in text`: substring containment. -/
def containsSub (pat : List Char) : List Char → Bool
  | [] => isPrefixList pat []
  | s :: ss => isPrefixList pat (s :: ss) || containsSub pat ss

/-- Python regex `\w` (ASCII range): letters, digits, underscore. -/
def isWordChar (c : Char) : Bool := c.isAlpha || c.isDigit || c = '_'

/-- Regex word boundary after a word character: the following text must
be empty or start with a non-word character. -/
def bnd : List Char → Bool
  | [] => true
  | c :: _ => !isWordChar c

/-! ## `normalize_amount` (parsing.py) -/

/-- One pass of `re.sub(r"(?<=\d)\s*(mil|k)\b", "", raw_amount)` together
with the corresponding `re.search`: removes every occurrence of an
optional space followed by `mil` or `k`, when preceded by a digit and
followed by a word boundary, and reports whether any occurrence was
found.  The input has already been through `collapse_spaces`, so a
whitespace run is a single `' '`.  The first argument is whether the
character before the current position (in the original string) is a
digit — the regex look-behind. -/
def stripMilKAux : Bool → List Char → List Char × Bool
  | _, [] => ([], false)
  | pd, 'm' :: 'i' :: 'l' :: rest =>
    if pd && bnd rest then ((stripMilKAux false rest).1, true)
    else
      let r := stripMilKAux false ('i' :: 'l' :: rest)
      ('m' :: r.1, r.2)
  | pd, 'k' :: rest =>
    if pd && bnd rest then ((stripMilKAux false rest).1, true)
    else
      let r := stripMilKAux false rest
      ('k' :: r.1, r.2)
  | pd, ' ' :: 'm' :: 'i' :: 'l' :: rest =>
    if pd && bnd rest then ((stripMilKAux false rest).1, true)
    else
      let r := stripMilKAux false ('m' :: 'i' :: 'l' :: rest)
      (' ' :: r.1, r.2)
  | pd, ' ' :: 'k' :: rest =>
    if pd && bnd rest then ((stripMilKAux false rest).1, true)
    else
      let r := stripMilKAux false ('k' :: rest)
      (' ' :: r.1, r.2)
  | _, c :: rest =>
    let r := stripMilKAux c.isDigit rest
    (c :: r.1, r.2)

def stripMilK (s : List Char) : List Char × Bool := stripMilKAux false s

/-- Embedding of `re.sub(r"\b(ars|usd|peso|pesos|dolar|dolares)\b", "", raw_amount)`:
remove every whole-word occurrence of a currency word.  The first
argument records whether the previous character is a word character (the
left word boundary of the regex).  For the prefix pairs `peso`/`pesos`
and `dolar`/`dolares` the trailing word boundary makes the regex's
alternatives mutually exclusive, so matching the longer spelling first
is equivalent to its backtracking. -/
def stripCurrencyAux : Bool → List Char → List Char
  | _, [] => []
  | pw, 'a' :: 'r' :: 's' :: rest =>
    if !pw && bnd rest then stripCurrencyAux true rest
    else 'a' :: stripCurrencyAux true ('r' :: 's' :: rest)
  | pw, 'u' :: 's' :: 'd' :: rest =>
    if !pw && bnd rest then stripCurrencyAux true rest
    else 'u' :: stripCurrencyAux true ('s' :: 'd' :: rest)
  | pw, 'p' :: 'e' :: 's' :: 'o' :: 's' :: rest =>
    if !pw && bnd rest then stripCurrencyAux true rest
    else 'p' :: stripCurrencyAux true ('e' :: 's' :: 'o' :: 's' :: rest)
  | pw, 'p' :: 'e' :: 's' :: 'o' :: rest =>
    if !pw && bnd rest then stripCurrencyAux true rest
    else 'p' :: stripCurrencyAux true ('e' :: 's' :: 'o' :: rest)
  | pw, 'd' :: 'o' :: 'l' :: 'a' :: 'r' :: 'e' :: 's' :: rest =>
    if !pw && bnd rest then stripCurrencyAux true rest
    else 'd' :: stripCurrencyAux true ('o' :: 'l' :: 'a' :: 'r' :: 'e' :: 's' :: rest)
  | pw, 'd' :: 'o' :: 'l' :: 'a' :: 'r' :: rest =>
    if !pw && bnd rest then stripCurrencyAux true rest
    else 'd' :: stripCurrencyAux true ('o' :: 'l' :: 'a' :: 'r' :: rest)
  | _, c :: cs => c :: stripCurrencyAux (isWordChar c) cs

def stripCurrency (s : List Char) : List Char := stripCurrencyAux false s

/-- Character class of `re.sub(r"[^\d,.\-]", "", raw_amount)`: keep only digits, comma,
dot and minus. -/
def isAmountChar (c : Char) : Bool := c.isDigit || c = ',' || c = '.' || c = '-'

/-- Python `str.rfind`: the greatest index of `c` in `s`, `-1` if absent. -/
def rfind (c : Char) : List Char → Int
  | [] => -1
  | x :: xs =>
    let r := rfind c xs
    if r ≥ 0 then r + 1 else if x = c then 0 else -1

/-- Python `str.split(sep)` for a one-character separator. -/
def splitSep (sep : Char) : List Char → List (List Char)
  | [] => [[]]
  | c :: cs =>
    match splitSep sep cs with
    | [] => [[]]
    | g :: gs => if c = sep then [] :: g :: gs else (c :: g) :: gs

/-- Embedding of `str.replace(c, "")`. -/
def removeAll (c : Char) (s : List Char) : List Char := s.filter (· ≠ c)

/-- Embedding of `str.replace(c, ".")` for a one-character pattern. -/
def toDot (c : Char) (s : List Char) : List Char :=
  s.map fun x => if x = c then '.' else x

/-- The separator-resolution block of `normalize_amount`
(parsing.py lines 60–90): decide which of `,`/`.` is the decimal point
and rewrite the string into Python-`float` syntax. -/
def resolveSeparators (s : List Char) : List Char :=
  if ',' ∈ s ∧ '.' ∈ s then
    if rfind ',' s > rfind '.' s then toDot ',' (removeAll '.' s)
    else removeAll ',' s
  else if ',' ∈ s then
    match splitSep ',' s with
    | [i, f] =>
      if f.length ≤ 2 then toDot ',' s
      else if f.length = 3 ∧ i.length ≤ 3 then removeAll ',' s
      else toDot ',' s
    | _ => removeAll ',' s
  else if '.' ∈ s then
    match splitSep '.' s with
    | [i, f] =>
      if f.length ≤ 2 then s
      else if f.length = 3 ∧ i.length ≤ 3 then removeAll '.' s
      else s
    | _ => removeAll '.' s
  else s

def digitVal (c : Char) : ℕ := c.toNat - 48

def natOfDigits (ds : List Char) : ℕ := ds.foldl (fun a d => a * 10 + digitVal d) 0

/-- Multiplication on `ℚ` written so that it evaluates by kernel
reduction (`Rat.mul` is `@[irreducible]`); `ratMul_eq` identifies it
with `*`. -/
def ratMul (a b : ℚ) : ℚ := Rat.divInt (a.num * b.num) (a.den * b.den)

/-- Python `float(...)` on an unsigned string made of digits with at most
one dot (any other shape raises `ValueError`, modelled as `none`).  The
value `intpart.frac` is represented as one exact fraction. -/
def parseFloatPos (s : List Char) : Option ℚ :=
  let intPart := s.takeWhile Char.isDigit
  match s.drop intPart.length with
  | [] => if intPart = [] then none else some (Rat.divInt (natOfDigits intPart) 1)
  | '.' :: fr =>
    if fr.all Char.isDigit ∧ (intPart ≠ [] ∨ fr ≠ []) then
      some (Rat.divInt (natOfDigits intPart * 10 ^ fr.length + natOfDigits fr)
        ((10 : ℤ) ^ fr.length))
    else none
  | _ :: _ => none

/-- Python `float(...)` with an optional leading minus sign. -/
def pyFloat : List Char → Option ℚ
  | '-' :: rest => (parseFloatPos rest).map Neg.neg
  | s => parseFloatPos s

/-- Round-half-to-even to an integer — Python's `round` on the exact
rational value of its argument.  With `f = ⌊q⌋` and `r = q - f ∈ [0,1)`,
`r` is compared against `1/2` by comparing `t = 2·(num − f·den)` (which
is `2·r·den`) against `den`; halves go to the even neighbour. -/
def roundHalfEven (q : ℚ) : ℤ :=
  if 2 * (q.num - ⌊q⌋ * q.den) < (q.den : ℤ) then ⌊q⌋
  else if (q.den : ℤ) < 2 * (q.num - ⌊q⌋ * q.den) then ⌊q⌋ + 1
  else if 2 ∣ ⌊q⌋ then ⌊q⌋ else ⌊q⌋ + 1

/-- Python `round(q, 2)`. -/
def round2 (q : ℚ) : ℚ := Rat.divInt (roundHalfEven (ratMul q 100)) 100

/-- The tail of `normalize_amount` after character cleaning: the guard
against empty/degenerate strings, separator resolution, `float` parsing,
the multiplier, the positivity check and 2-decimal rounding. -/
def normalizeCleaned (cleaned : List Char) (mult : ℚ) : Option ℚ :=
  if cleaned = [] ∨ cleaned = ['-'] ∨ cleaned = ['.'] ∨ cleaned = [','] then none
  else
    match pyFloat (resolveSeparators cleaned) with
    | none => none
    | some v => if ratMul v mult ≤ 0 then none else some (round2 (ratMul v mult))

/-- Embedding of `normalize_amount` (parsing.py), string branch: accent/case
normalisation, the `mil`/`k` ×1000 multiplier, currency-word removal,
character filtering, then `normalizeCleaned`. -/
def normalize_amount (s : List Char) : Option ℚ :=
  let milk := stripMilK (stripAccents (pyLower (collapse_spaces s)))
  normalizeCleaned ((stripCurrency milk.1).filter isAmountChar)
    (if milk.2 then 1000 else 1)

/-- Embedding of `normalize_amount` (parsing.py), numeric branch (`int`/`float`
argument): only the positivity check and rounding apply. -/
def normalizeAmountNum (q : ℚ) : Option ℚ :=
  if q ≤ 0 then none else some (round2 q)

/-- The separator policy exactly as the specification words it: when only
one separator kind is present and the string does not split into a single
integer-part/trailing-group pair matching one of the two named rules, the
separator is "otherwise" treated as the decimal point — including when it
occurs several times. -/
def specSeparatorResolution (s : List Char) : List Char :=
  if ',' ∈ s ∧ '.' ∈ s then
    if rfind ',' s > rfind '.' s then toDot ',' (removeAll '.' s)
    else removeAll ',' s
  else if ',' ∈ s then
    match splitSep ',' s with
    | [i, f] =>
      if f.length ≤ 2 then toDot ',' s
      else if f.length = 3 ∧ i.length ≤ 3 then removeAll ',' s
      else toDot ',' s
    | _ => toDot ',' s
  else if '.' ∈ s then
    match splitSep '.' s with
    | [i, f] =>
      if f.length ≤ 2 then s
      else if f.length = 3 ∧ i.length ≤ 3 then removeAll '.' s
      else s
    | _ => s
  else s

/-! ## `normalize_category` and expenses (parsing.py) -/

def leisureSynonyms : List (List Char) :=
  ["salida".data, "salidas".data, "ocio".data, "entretenimiento".data,
   "recreacion".data, "recreativo".data, "hobby".data, "hobbies".data,
   "discrecional".data, "no esencial".data, "leisure".data]

def obligationSynonyms : List (List Char) :=
  ["obligacion".data, "obligaciones".data, "obligatorio".data, "obligatoria".data,
   "esencial".data, "fijo".data, "fija".data, "deuda".data]

def unclearSynonyms : List (List Char) :=
  ["unclear".data, "otro".data, "otros".data, "ambigua".data, "ambiguo".data,
   "indefinido".data]

/-- Embedding of `normalize_category` (parsing.py): accent/case-normalise
and collapse the text, then match it against the fixed synonym sets,
defaulting to `unclear`. -/
def normalize_category (category : List Char) : List Char :=
  let value := stripAccents (pyLower (collapse_spaces category))
  if value ∈ leisureSynonyms then "salida".data
  else if value ∈ obligationSynonyms then "obligacion".data
  else if value ∈ unclearSynonyms then "unclear".data
  else "unclear".data

/-- An extracted expense, as produced by `normalize_expense` and the
fallbacks of `call_ollama_extract` (clients.py): a dict with exactly the
keys `category` and `amount`. -/
structure Expense where
  category : List Char
  amount : ℚ
  deriving DecidableEq

/-- Embedding of `normalize_expense` (parsing.py) for a string amount:
`none` when the amount is absent or fails `normalize_amount`; the
category defaults to `"unclear"` before normalisation. -/
def normalize_expense (category : Option (List Char)) (amount : Option (List Char)) :
    Option Expense :=
  match amount with
  | none => none
  | some a =>
    match normalize_amount a with
    | none => none
    | some na => some ⟨normalize_category (category.getD "unclear".data), na⟩

/-! ## Neighbour-prior corrector (polling.py) -/

/-- One retrieved similar expense (`SimilarExample` of the spec), as
assembled by `retrieve_similar_expenses` (storage.py): `category`,
`amount`, `distance` and `month_key` come from `metadata.get(...)` and
are `none` when missing or of the wrong runtime type. -/
structure SimilarExample where
  document : List Char
  category : Option (List Char)
  amount : Option ℚ
  distance : Option ℚ
  month_key : Option (List Char)
  deriving DecidableEq

/-- The neighbour-prior tuning values (tuning.py), passed explicitly:
`NEIGHBOR_PRIOR_TOP_K`, `NEIGHBOR_PRIOR_MIN_CONSIDERED_UNCLEAR`,
`NEIGHBOR_PRIOR_RATIO_UNCLEAR`, `NEIGHBOR_PRIOR_MIN_CONSIDERED_OVERRIDE`,
`NEIGHBOR_PRIOR_RATIO_OVERRIDE`. -/
structure PriorConfig where
  topK : ℕ
  minConsideredUnclear : ℕ
  ratioUnclear : ℚ
  minConsideredOverride : ℕ
  ratioOverride : ℚ

/-- Default tuning values of tuning.py (no environment overrides). -/
def defaultPriorConfig : PriorConfig :=
  ⟨3, 2, Rat.divInt 60 100, 3, Rat.divInt 80 100⟩

/-- Python dict vote accumulation `votes[k] = votes.get(k, 0) + 1`,
keeping insertion order. -/
def bumpVote (k : List Char) : List (List Char × ℕ) → List (List Char × ℕ)
  | [] => [(k, 1)]
  | (k', n) :: rest => if k' = k then (k', n + 1) :: rest else (k', n) :: bumpVote k rest

/-- The tally loop of `_neighbor_majority` (polling.py): count a vote for
each example whose `category` is a string, normalised by
`normalize_category`; also count how many were considered. -/
def tallyVotes (examples : List SimilarExample) : List (List Char × ℕ) × ℕ :=
  examples.foldl
    (fun acc e =>
      match e.category with
      | some c => (bumpVote (normalize_category c) acc.1, acc.2 + 1)
      | none => acc)
    ([], 0)

/-- Python `max(votes.items(), key=count)`: the first key of maximal
count in iteration (= insertion) order. -/
def maxVote : List (List Char × ℕ) → Option (List Char × ℕ)
  | [] => none
  | p :: rest =>
    match maxVote rest with
    | none => some p
    | some q => if q.2 > p.2 then some q else some p

/-- Embedding of `_neighbor_majority` (polling.py): dominant category,
its vote ratio, and the number of considered neighbours among the first
`topK` examples. -/
def neighborMajority (topK : ℕ) (examples : List SimilarExample) :
    Option (List Char) × ℚ × ℕ :=
  let t := tallyVotes (examples.take topK)
  if t.2 = 0 then (none, 0, 0)
  else
    match maxVote t.1 with
    | none => (none, 0, 0)
    | some (c, n) => (some c, Rat.divInt n t.2, t.2)

/-- Embedding of `_apply_neighbor_prior` (polling.py) for a present
expense (the pipeline's expenses always carry a string category). -/
def adjustNeighborPrior (cfg : PriorConfig) (e : Expense)
    (sims : List SimilarExample) : Expense :=
  match neighborMajority cfg.topK sims with
  | (none, _, _) => e
  | (some dom, ratio, considered) =>
    if dom = "unclear".data then e
    else if normalize_category e.category = "unclear".data ∧
        cfg.minConsideredUnclear ≤ considered ∧ cfg.ratioUnclear ≤ ratio then
      { e with category := dom }
    else if normalize_category e.category ≠ dom ∧
        cfg.minConsideredOverride ≤ considered ∧ cfg.ratioOverride ≤ ratio then
      { e with category := dom }
    else e

/-- Embedding of `_apply_neighbor_prior` (polling.py): `None` passes
through. -/
def apply_neighbor_prior (cfg : PriorConfig) (e : Option Expense)
    (sims : List SimilarExample) : Option Expense :=
  e.map fun ex => adjustNeighborPrior cfg ex sims

/-- The claim's first adjustment branch (polling.py lines 120–124): the
current category is unclear, enough neighbours were considered, and the
dominant ratio reaches the unclear threshold. -/
abbrev unclearOverrideCond (cfg : PriorConfig) (e : Expense) (considered : ℕ) (ratio : ℚ) :
    Prop :=
  normalize_category e.category = "unclear".data ∧
    cfg.minConsideredUnclear ≤ considered ∧ cfg.ratioUnclear ≤ ratio

/-- The claim's second adjustment branch (polling.py lines 126–130): the
current category differs from the dominant one, enough neighbours were
considered, and the ratio reaches the override threshold. -/
abbrev mismatchOverrideCond (cfg : PriorConfig) (e : Expense) (dom : List Char)
    (considered : ℕ) (ratio : ℚ) : Prop :=
  normalize_category e.category ≠ dom ∧
    cfg.minConsideredOverride ≤ considered ∧ cfg.ratioOverride ≤ ratio

/-! ## The ledger (storage.py) -/

def digitChar (d : ℕ) : Char := Char.ofNat (48 + d)

/-- Little-endian decimal digits of `n`; the first argument is fuel
(`n` itself suffices). -/
def natDigitsAux : ℕ → ℕ → List Char
  | 0, _ => []
  | _, 0 => []
  | fuel + 1, n => digitChar (n % 10) :: natDigitsAux fuel (n / 10)

/-- Decimal rendering of a natural number. -/
def natToChars (n : ℕ) : List Char :=
  if n = 0 then ['0'] else (natDigitsAux n n).reverse

/-- Left-pad with zeros to width `w` (Python `%Y` / `%m` zero padding). -/
def leftPad (w : ℕ) (s : List Char) : List Char :=
  List.replicate (w - s.length) '0' ++ s

/-- Embedding of `occurred_dt.strftime("%Y-%m")` (storage.py), with the
timestamp modelled by its year and month. -/
def monthKey (y m : ℕ) : List Char :=
  leftPad 4 (natToChars y) ++ '-' :: leftPad 2 (natToChars m)

/-- One row of the `expenses` table (storage.py `_init_schema`), with the
`occurred_at` ISO timestamp modelled by its year and month. -/
structure ExpenseRow where
  id : ℕ
  update_id : ℤ
  chat_id : ℤ
  categoria : List Char
  monto : ℚ
  currency : List Char
  occurredYear : ℕ
  occurredMonth : ℕ
  month_key : List Char
  raw_text : List Char
  source : List Char
  deriving DecidableEq

/-- The SQLite ledger state: rows plus the AUTOINCREMENT counter. -/
structure LedgerState where
  rows : List ExpenseRow
  nextId : ℕ
  deriving DecidableEq

/-- Embedding of `_insert_expense` (storage.py): attempt the INSERT; on
the UNIQUE(update_id) violation, SELECT the existing row and report
`inserted=False`.  Returns `((row id, inserted), new state)`. -/
def insert_expense (st : LedgerState) (uid : ℤ) (chat : ℤ) (category : List Char)
    (amount : ℚ) (currency : List Char) (oy om : ℕ) (mk raw src : List Char) :
    (ℕ × Bool) × LedgerState :=
  match st.rows.find? (fun r => r.update_id == uid) with
  | some r => ((r.id, false), st)
  | none =>
    ((st.nextId, true),
     ⟨st.rows ++ [⟨st.nextId, uid, chat, category, amount, currency, oy, om, mk, raw, src⟩],
      st.nextId + 1⟩)

/-- The result dict of `store_expense` (storage.py); absent keys are
`none`. -/
structure StoreResult where
  status : List Char
  reason : Option (List Char)
  expense_id : Option ℕ
  inserted : Option Bool
  vector_status : Option (List Char)
  month_key : Option (List Char)
  currency : Option (List Char)
  deriving DecidableEq

/-- A vector-indexing task submitted to the single-worker executor
(the arguments of `_upsert_vector_background`, storage.py). -/
structure VectorTask where
  expense_id : ℕ
  chat_id : ℤ
  categoria : List Char
  monto : ℚ
  currency : List Char
  month_key : List Char
  source : List Char
  raw_text : List Char
  deriving DecidableEq

/-- Embedding of `store_expense` (storage.py): skip without touching
anything when `chat_id` is absent; otherwise derive `month_key`, run the
idempotent insert, and schedule the vector-indexing task (the submit is
modelled as always succeeding — `vector_status="queued"`). -/
def store_expense (st : LedgerState) (uid : ℤ) (chatId : Option ℤ)
    (category : List Char) (amount : ℚ) (oy om : ℕ) (raw src curr : List Char) :
    StoreResult × LedgerState × List VectorTask :=
  match chatId with
  | none => (⟨"skipped".data, some "missing_chat_id".data, none, none, none, none, none⟩, st, [])
  | some chat =>
    let mk := monthKey oy om
    let res := insert_expense st uid chat category amount curr oy om mk raw src
    (⟨"stored".data, none, some res.1.1, some res.1.2, some "queued".data, some mk, some curr⟩,
     res.2,
     [⟨res.1.1, chat, category, amount, curr, mk, src, raw⟩])

/-! ## `retrieve_similar_expenses` (storage.py) -/

/-- An external call made by the retriever: the embedding request and
the vector-index query. -/
inductive ExtCall
  | embed (text : List Char)
  | query (embedding : List ℚ) (nResults : ℕ) (chatId : ℤ)
  deriving DecidableEq

/-- Denormalised metadata attached to a vector entry; each lookup
(`metadata.get(...)`) may be absent. -/
structure SimilarMeta where
  categoria : Option (List Char)
  monto : Option ℚ
  month_key : Option (List Char)
  deriving DecidableEq

/-- The parts of a Chroma `query` response used by the retriever.  Each
field models `result.get(key, [[]])[0]` when it is a list (`none`
models a missing key or a non-list first element); inner `none`s model
entries of the wrong runtime type. -/
structure ChromaQueryResult where
  documents : Option (List (Option (List Char)))
  metadatas : Option (List (Option SimilarMeta))
  distances : Option (List (Option ℚ))

/-- The services used by the retriever: the embedding endpoint and the
chat-filtered vector-index query.  `Except` models a raised exception. -/
structure RetrieveEnv where
  embed : List Char → Except (List Char) (List ℚ)
  queryIndex : List ℚ → ℕ → ℤ → Except (List Char) ChromaQueryResult

/-- The assembly loop of `retrieve_similar_expenses` (storage.py):
index-aligned zip of documents, metadata and distances, skipping
non-string documents and replacing missing/ill-typed metadata or
distances by defaults. -/
def assembleSimilar (docs : List (Option (List Char)))
    (metas : List (Option SimilarMeta)) (dists : List (Option ℚ)) :
    List SimilarExample :=
  docs.enum.filterMap fun p =>
    p.2.map fun doc =>
      let meta : Option SimilarMeta := (metas.get? p.1).join
      { document := doc
        category := meta.bind SimilarMeta.categoria
        amount := meta.bind SimilarMeta.monto
        distance := (dists.get? p.1).join
        month_key := meta.bind SimilarMeta.month_key }

/-- Embedding of `retrieve_similar_expenses` (storage.py), returning the
result together with the list of external calls actually made.  An
absent `chat_id` or an (after whitespace collapsing) empty text returns
an empty list before any service is contacted. -/
def retrieve_similar_expenses (env : RetrieveEnv) (chatId : Option ℤ)
    (text : List Char) (nResults : ℕ) :
    Except (List Char) (List SimilarExample) × List ExtCall :=
  match chatId with
  | none => (.ok [], [])
  | some chat =>
    let normalized := collapse_spaces text
    if normalized = [] then (.ok [], [])
    else
      match env.embed normalized with
      | .error e => (.error e, [.embed normalized])
      | .ok emb =>
        match env.queryIndex emb (max 1 nResults) chat with
        | .error e => (.error e, [.embed normalized, .query emb (max 1 nResults) chat])
        | .ok result =>
          match result.documents with
          | none => (.ok [], [.embed normalized, .query emb (max 1 nResults) chat])
          | some docList =>
            (.ok (assembleSimilar docList (result.metadatas.getD []) (result.distances.getD [])),
             [.embed normalized, .query emb (max 1 nResults) chat])

/-! ## Query-intent parsing (query/parser.py) -/

/-- Embedding of `_normalize_text` (query/parser.py): lower-case, strip
accents, collapse whitespace. -/
def normalizeText (t : List Char) : List Char :=
  collapse_spaces (stripAccents (pyLower t))

/-- Whole-word regex match (`\bpat\b`) starting at the head of `s`, for
a pattern made of word characters. -/
def matchWordAt (pat s : List Char) : Bool :=
  isPrefixList pat s && bnd (s.drop pat.length)

/-- Scanning search for `\bpat\b`; the Bool argument is whether the
previous character allows a word boundary here. -/
def searchWordAux (pat : List Char) : Bool → List Char → Bool
  | _, [] => false
  | prevOk, c :: cs =>
    (prevOk && matchWordAt pat (c :: cs)) || searchWordAux pat (!isWordChar c) cs

/-- Embedding of `re.search(rf"\b{pat}\b", s) is not None` for a
word-character pattern. -/
def searchWord (pat s : List Char) : Bool := searchWordAux pat true s

def MONTH_MAP : List (List Char × ℕ) :=
  [("enero".data, 1), ("febrero".data, 2), ("marzo".data, 3), ("abril".data, 4),
   ("mayo".data, 5), ("junio".data, 6), ("julio".data, 7), ("agosto".data, 8),
   ("septiembre".data, 9), ("setiembre".data, 9), ("octubre".data, 10),
   ("noviembre".data, 11), ("diciembre".data, 12)]

/-- Embedding of `_extract_month` (query/parser.py): the first month name
(in `MONTH_MAP` order) that occurs as a whole word. -/
def extract_month (t : List Char) : Option ℕ :=
  (MONTH_MAP.find? fun p => searchWord p.1 t).map Prod.snd

/-- Helper for `_extract_year`: a `20\d{2}` match at the head with a
trailing word boundary. -/
def match20xx : List Char → Option ℕ
  | '2' :: '0' :: d1 :: d2 :: rest =>
    if d1.isDigit && d2.isDigit && bnd rest then
      some (2000 + 10 * digitVal d1 + digitVal d2)
    else none
  | _ => none

/-- Scanning search for `\b(20\d{2})\b` (leftmost match). -/
def searchYearAux : Bool → List Char → Option ℕ
  | _, [] => none
  | prevOk, c :: cs =>
    match (if prevOk then match20xx (c :: cs) else none) with
    | some y => some y
    | none => searchYearAux (!isWordChar c) cs

/-- Embedding of `_extract_year` (query/parser.py). -/
def extract_year (t : List Char) : Option ℕ := searchYearAux true t

/-- Embedding of `_extract_categories` (query/parser.py): the
non-exclusive set of detected category keyword families, `none` when
none is present. -/
def extract_categories (t : List Char) : Option (List (List Char)) :=
  let cats :=
    (if searchWord "salida".data t || searchWord "salidas".data t
      then ["salida".data] else []) ++
    (if searchWord "obligacion".data t || searchWord "obligaciones".data t
      then ["obligacion".data] else []) ++
    (if searchWord "unclear".data t || searchWord "otro".data t ||
        searchWord "otros".data t
      then ["unclear".data] else [])
  if cats = [] then none else some cats

def analysisWords : List (List Char) :=
  ["cuanto".data, "cuanta".data, "cual".data, "cuando".data, "total".data,
   "maximo".data, "max".data, "suma".data, "sumar".data]

def analysisPhrases : List (List Char) :=
  ["cada cosa".data, "por categoria".data, "por categorias".data, "desglose".data]

def expenseContextWords : List (List Char) :=
  ["gasto".data, "gaste".data, "gastado".data, "gastos".data, "salida".data,
   "salidas".data, "obligacion".data, "obligaciones".data, "unclear".data,
   "otro".data, "otros".data]

def hasAnalysisHint (t : List Char) : Bool :=
  analysisWords.any (fun w => containsSub w t) ||
    analysisPhrases.any (fun w => containsSub w t)

def endsWithQuestion (t : List Char) : Bool :=
  match t.getLast? with
  | some '?' => true
  | _ => false

def hasRelativeMonthHint (t : List Char) : Bool :=
  containsSub "mes pasado".data t || containsSub "este mes".data t

def hasMonthHint (t : List Char) : Bool :=
  hasRelativeMonthHint t || (extract_month t).isSome

def hasExpenseContext (t : List Char) : Bool :=
  expenseContextWords.any fun w => containsSub w t

/-- Embedding of `_is_query_candidate` (query/parser.py): texts that look
like expense entries (`"tipo de gasto"` and `"gasto"` both as
substrings) are rejected; otherwise an analysis hint or a trailing `?`,
and an expense-context word or a month hint, are both required. -/
def isQueryCandidate (t : List Char) : Bool :=
  if containsSub "tipo de gasto".data t && containsSub "gasto".data t then false
  else
    (hasAnalysisHint t || endsWithQuestion t) && (hasExpenseContext t || hasMonthHint t)

/-- Embedding of the `QueryIntent` dataclass (query/parser.py). -/
structure QueryIntent where
  operation : List Char
  month : Option ℕ
  year : Option ℕ
  categories : Option (List (List Char))
  deriving DecidableEq

/-- Embedding of `_previous_month_year` (query/parser.py), with "now"
passed explicitly as month/year. -/
def previousMonthYear (m y : ℕ) : ℕ × ℕ :=
  if m = 1 then (12, y - 1) else (m - 1, y)

/-- Embedding of `parse_query_intent` (query/parser.py).  The caller's
timezone-resolved current date is passed as `nowMonth`/`nowYear`
(standing for `datetime.now(tz)` of `_current_month_year`). -/
def parse_query_intent (text : List Char) (nowMonth nowYear : ℕ) : Option QueryIntent :=
  let normalized := normalizeText text
  if isQueryCandidate normalized then
    let my : Option ℕ × Option ℕ :=
      if containsSub "mes pasado".data normalized then
        (some (previousMonthYear nowMonth nowYear).1, some (previousMonthYear nowMonth nowYear).2)
      else if containsSub "este mes".data normalized then (some nowMonth, some nowYear)
      else (extract_month normalized, extract_year normalized)
    some
      ⟨if containsSub "maximo".data normalized || searchWord "max".data normalized
          then "max".data else "sum".data,
       my.1, my.2, extract_categories normalized⟩
  else none

/-! ## Money formatting (formatting.py) -/

def twoDigits (f : ℕ) : List Char := [digitChar (f / 10), digitChar (f % 10)]

/-- Digit grouping of Python's `{:,}` format, on a little-endian digit
list: a separator after every three digits (counted by `cnt`). -/
def group3Aux (sep : Char) (cnt : ℕ) : List Char → List Char
  | [] => []
  | d :: ds =>
    if cnt = 3 then sep :: d :: group3Aux sep 1 ds
    else d :: group3Aux sep (cnt + 1) ds

/-- Integer digits of `n` grouped in threes by `sep` (big-endian). -/
def groupedDigits (sep : Char) (n : ℕ) : List Char :=
  (group3Aux sep 0 (if n = 0 then ['0'] else natDigitsAux n n)).reverse

/-- Python `f"{value:,.2f}"` for `value = cents/100`: sign, grouped
integer digits with `,`, a `.`, and two fraction digits. -/
def pyFormatCents (cents : ℤ) : List Char :=
  (if cents < 0 then ['-'] else []) ++
    groupedDigits ',' (cents.natAbs / 100) ++ '.' :: twoDigits (cents.natAbs % 100)

def commaToUnderscore (c : Char) : Char := if c = ',' then '_' else c

def dotToComma (c : Char) : Char := if c = '.' then ',' else c

def underscoreToDot (c : Char) : Char := if c = '_' then '.' else c

/-- Python `str.endswith(suf)`. -/
def endsWith (suf s : List Char) : Bool := isPrefixList suf.reverse s.reverse

/-- Embedding of `format_amount` (formatting.py): round to 2 decimals,
render with `{:,.2f}`, swap `,`/`.` via the `_` intermediate, and drop a
trailing `",00"`. -/
def format_amount (q : ℚ) : List Char :=
  let rendered := pyFormatCents (roundHalfEven (ratMul q 100))
  let swapped := ((rendered.map commaToUnderscore).map dotToComma).map underscoreToDot
  if endsWith ",00".data swapped then swapped.take (swapped.length - 3) else swapped

/-- Money rendering as the specification words it, for a nonnegative
amount of `cents/100`: thousands separated by `.`, decimals after `,`,
and no decimal part at all when it would be `,00`. -/
def specRenderMoney (cents : ℕ) : List Char :=
  groupedDigits '.' (cents / 100) ++
    (if cents % 100 = 0 then [] else ',' :: twoDigits (cents % 100))

/-! ## The per-message pipeline (polling.py) -/

/-- Outcomes of the two service interactions of one message's expense
path: the similarity retrieval and the `call_ollama_extract` call
(clients.py) — prompt generation, the LLM call, tolerant JSON parsing
and the numeric fallbacks all live behind the latter.  `Except` models a
raised exception. -/
structure PipelineEnv where
  retrieve : Except (List Char) (List SimilarExample)
  llmExtract : Except (List Char) (Option Expense)

/-- Result of `_extract_expense_with_context` (polling.py), plus whether
the LLM extractor was invoked. -/
structure ExtractOutcome where
  expense : Option Expense
  sims : List SimilarExample
  extractionError : Option (List Char)
  llmInvoked : Bool
  deriving DecidableEq

/-- Embedding of `_extract_expense_with_context` (polling.py): retrieval
failures degrade to an empty context; the LLM extraction is always
attempted; its result goes through the neighbour prior; a retrieval
error is only reported when no expense was found. -/
def extractExpenseWithContext (cfg : PriorConfig) (env : PipelineEnv) : ExtractOutcome :=
  let simsErr : List SimilarExample × Option (List Char) :=
    match env.retrieve with
    | .ok l => (l, none)
    | .error e => ([], some ("vector_retrieval_error: ".data ++ e))
  match env.llmExtract with
  | .error e => ⟨none, simsErr.1, some ("llm_error: ".data ++ e), true⟩
  | .ok o =>
    match apply_neighbor_prior cfg o simsErr.1, simsErr.2 with
    | none, some re => ⟨none, simsErr.1, some re, true⟩
    | adjusted, _ => ⟨adjusted, simsErr.1, none, true⟩

/-- What one text message's handling produced (the per-update body of
`run_long_polling`, polling.py): whether the LLM extractor was invoked,
the `persistence` entry of the logged event (`none` on the query path,
which stores nothing), the ledger state afterwards, and the scheduled
vector tasks. -/
structure HandleResult where
  llmCalled : Bool
  persistence : Option StoreResult
  ledger : LedgerState
  tasks : List VectorTask
  deriving DecidableEq

/-- Embedding of the per-text-message handling of `run_long_polling`
(polling.py lines 238–328): a parsed query intent is answered from the
ledger (no extraction, no store); otherwise the expense is extracted
with context and, when found, stored with `source="llm"`; the
skip reasons mirror the code. -/
def handleTextMessage (cfg : PriorConfig) (env : PipelineEnv) (st : LedgerState)
    (updateId : ℤ) (chatId : Option ℤ) (text : List Char)
    (nowMonth nowYear : ℕ) (defaultCurrency : List Char) : HandleResult :=
  match parse_query_intent text nowMonth nowYear with
  | some _ => ⟨false, none, st, []⟩
  | none =>
    let ex := extractExpenseWithContext cfg env
    match ex.expense with
    | some e =>
      let r := store_expense st updateId chatId e.category e.amount nowYear nowMonth
        text "llm".data defaultCurrency
      ⟨ex.llmInvoked, some r.1, r.2.1, r.2.2⟩
    | none =>
      ⟨ex.llmInvoked,
       some ⟨"skipped".data,
         some (if ex.extractionError = none then "no_expense_detected".data
           else "expense_extraction_error".data),
         none, none, none, none, none⟩,
       st, []⟩

/-! ## General lemmas -/

theorem ratMul_eq (a b : ℚ) : ratMul a b = a * b := by
  unfold ratMul
  rw [Rat.divInt_eq_div]
  push_cast
  rw [← div_mul_div_comm, Rat.num_div_den, Rat.num_div_den]

theorem roundHalfEven_nonneg {q : ℚ} (h : 0 ≤ q) : 0 ≤ roundHalfEven q := by
  have hf : (0 : ℤ) ≤ ⌊q⌋ := Int.floor_nonneg.mpr h
  unfold roundHalfEven
  split_ifs <;> omega

theorem round2_nonneg {q : ℚ} (h : 0 ≤ q) : 0 ≤ round2 q := by
  have h1 : (0 : ℚ) ≤ ratMul q 100 := by
    rw [ratMul_eq]; exact mul_nonneg h (by norm_num)
  have h2 := roundHalfEven_nonneg h1
  unfold round2
  rw [Rat.divInt_eq_div]
  exact div_nonneg (by exact_mod_cast h2) (by norm_num)

theorem normalizeCleaned_shape (cleaned : List Char) (mult : ℚ) :
    normalizeCleaned cleaned mult = none ∨
      ∃ v : ℚ, 0 < v ∧ normalizeCleaned cleaned mult = some (round2 v) ∧ 0 ≤ round2 v := by
  unfold normalizeCleaned
  by_cases h0 : cleaned = [] ∨ cleaned = ['-'] ∨ cleaned = ['.'] ∨ cleaned = [',']
  · left; exact if_pos h0
  · rw [if_neg h0]
    rcases hp : pyFloat (resolveSeparators cleaned) with _ | v
    · exact Or.inl rfl
    · by_cases hv : ratMul v mult ≤ 0
      · left; exact if_pos hv
      · right
        exact ⟨ratMul v mult, lt_of_not_le hv, if_neg hv, round2_nonneg (le_of_not_le hv)⟩

/-- Shape of every non-`none` result of `normalize_amount`: it is the
2-decimal rounding of some positive pre-rounding value (and hence
nonnegative, though it can be `0` when that value is below `0.005`). -/
theorem normalize_amount_shape (s : List Char) :
    normalize_amount s = none ∨
      ∃ v : ℚ, 0 < v ∧ normalize_amount s = some (round2 v) ∧ 0 ≤ round2 v :=
  normalizeCleaned_shape _ _

theorem find?_append_of_none {α : Type} (p : α → Bool) {l₁ : List α} (l₂ : List α)
    (h : l₁.find? p = none) : (l₁ ++ l₂).find? p = l₂.find? p := by
  induction l₁ with
  | nil => rfl
  | cons a l ih =>
    rcases hpa : p a with _ | _
    · rw [List.find?_cons_of_neg _ (by simp [hpa])] at h
      rw [List.cons_append, List.find?_cons_of_neg _ (by simp [hpa])]
      exact ih h
    · rw [List.find?_cons_of_pos _ hpa] at h
      exact absurd h (by simp)

theorem splitSep_ne_nil (c : Char) (l : List Char) : splitSep c l ≠ [] := by
  cases l with
  | nil => simp [splitSep]
  | cons x xs =>
    unfold splitSep
    rcases h : splitSep c xs with _ | ⟨g, gs⟩
    · simp
    · dsimp only
      split <;> simp

theorem splitSep_not_mem {c : Char} {l : List Char} (h : c ∉ l) : splitSep c l = [l] := by
  induction l with
  | nil => rfl
  | cons x xs ih =>
    simp only [List.mem_cons, not_or] at h
    unfold splitSep
    rw [ih h.2]
    dsimp only
    rw [if_neg fun he => h.1 he.symm]

theorem splitSep_middle {c : Char} {i f : List Char} (hi : c ∉ i) (hf : c ∉ f) :
    splitSep c (i ++ c :: f) = [i, f] := by
  induction i with
  | nil =>
    show splitSep c (c :: f) = [[], f]
    unfold splitSep
    rw [splitSep_not_mem hf]
    dsimp only
    rw [if_pos rfl]
  | cons x xs ih =>
    simp only [List.mem_cons, not_or] at hi
    show splitSep c (x :: (xs ++ c :: f)) = _
    unfold splitSep
    rw [ih hi.2]
    dsimp only
    rw [if_neg fun he => hi.1 he.symm]

theorem splitSep_length (c : Char) (l : List Char) :
    (splitSep c l).length = l.count c + 1 := by
  induction l with
  | nil => rfl
  | cons x xs ih =>
    unfold splitSep
    rcases h : splitSep c xs with _ | ⟨g, gs⟩
    · exact absurd h (splitSep_ne_nil c xs)
    · rw [h] at ih
      dsimp only
      by_cases hx : x = c
      · subst hx
        rw [if_pos rfl]
        simp only [List.length_cons, List.count_cons_self]
        simp only [List.length_cons] at ih
        omega
      · rw [if_neg hx]
        rw [List.count_cons_of_ne (fun he => hx he.symm)]
        simp only [List.length_cons] at ih ⊢
        omega

theorem swapChain_comma :
    ((underscoreToDot ∘ dotToComma) ∘ commaToUnderscore) ',' = '.' := by decide

theorem swapChain_dot :
    ((underscoreToDot ∘ dotToComma) ∘ commaToUnderscore) '.' = ',' := by decide

theorem swapChain_digit {d : ℕ} (h : d < 10) :
    ((underscoreToDot ∘ dotToComma) ∘ commaToUnderscore) (digitChar d) = digitChar d := by
  interval_cases d <;> decide

theorem zero_beq_digitChar {d : ℕ} (h : d < 10) :
    ('0' == digitChar d) = decide (d = 0) := by
  interval_cases d <;> decide

theorem natDigitsAux_all_digits (fuel n : ℕ) :
    ∀ c ∈ natDigitsAux fuel n, ∃ d, d < 10 ∧ c = digitChar d := by
  induction fuel generalizing n with
  | zero => intro c hc; simp [natDigitsAux] at hc
  | succ fuel ih =>
    intro c hc
    cases n with
    | zero => simp [natDigitsAux] at hc
    | succ m =>
      simp only [natDigitsAux, List.mem_cons] at hc
      rcases hc with h | h
      · exact ⟨(m + 1) % 10, Nat.mod_lt _ (by norm_num), h⟩
      · exact ih _ c h

theorem map_swapChain_group3 (l : List Char)
    (h : ∀ c ∈ l, ∃ d, d < 10 ∧ c = digitChar d) (cnt : ℕ) :
    (group3Aux ',' cnt l).map ((underscoreToDot ∘ dotToComma) ∘ commaToUnderscore)
      = group3Aux '.' cnt l := by
  induction l generalizing cnt with
  | nil => rfl
  | cons x xs ih =>
    obtain ⟨d, hd, rfl⟩ := h x (List.mem_cons_self _ _)
    have hxs := fun c hc => h c (List.mem_cons_of_mem _ hc)
    by_cases hc : cnt = 3
    · subst hc
      simp only [group3Aux, if_pos]
      simp only [List.map_cons]
      rw [swapChain_comma, swapChain_digit hd, ih hxs]
    · simp only [group3Aux, if_neg hc]
      simp only [List.map_cons]
      rw [swapChain_digit hd, ih hxs]

theorem map_swapChain_groupedDigits (n : ℕ) :
    (groupedDigits ',' n).map ((underscoreToDot ∘ dotToComma) ∘ commaToUnderscore)
      = groupedDigits '.' n := by
  unfold groupedDigits
  rw [List.map_reverse]
  congr 1
  apply map_swapChain_group3
  intro c hc
  by_cases hn : n = 0
  · rw [if_pos hn] at hc
    exact ⟨0, by norm_num, by simpa using hc⟩
  · rw [if_neg hn] at hc
    exact natDigitsAux_all_digits _ _ c hc

theorem map_swapChain_twoDigits {f : ℕ} (h : f < 100) :
    (twoDigits f).map ((underscoreToDot ∘ dotToComma) ∘ commaToUnderscore) = twoDigits f := by
  unfold twoDigits
  simp only [List.map_cons, List.map_nil]
  rw [swapChain_digit (by omega : f / 10 < 10), swapChain_digit (by omega : f % 10 < 10)]

theorem isPrefixList_append_self (p t : List Char) : isPrefixList p (p ++ t) = true := by
  induction p with
  | nil => rfl
  | cons x xs ih => simp [isPrefixList, ih]

theorem endsWith_append_self (suf l : List Char) : endsWith suf (l ++ suf) = true := by
  unfold endsWith
  rw [List.reverse_append]
  exact isPrefixList_append_self _ _

/-! ## Claim theorems -/

/-- **C1.** Idempotence of the ledger keyed by `update_id`: starting from
a ledger with no record for `uid`, a first `store_expense` call reports
`inserted=true`, a second call with the same `uid` (whatever its other
arguments) creates no record (the state is unchanged), returns the same
record id, reports `inserted=false`, and the ledger holds exactly one
record keyed by `uid` after each call. -/
theorem C1_store_idempotent
    (st : LedgerState) (uid chat1 chat2 : ℤ)
    (cat1 cat2 : List Char) (amt1 amt2 : ℚ) (oy1 om1 oy2 om2 : ℕ)
    (raw1 raw2 src1 src2 curr1 curr2 : List Char)
    (r1 r2 : StoreResult) (st1 st2 : LedgerState) (t1 t2 : List VectorTask)
    (h : ∀ r ∈ st.rows, r.update_id ≠ uid)
    (h1 : store_expense st uid (some chat1) cat1 amt1 oy1 om1 raw1 src1 curr1 = (r1, st1, t1))
    (h2 : store_expense st1 uid (some chat2) cat2 amt2 oy2 om2 raw2 src2 curr2 = (r2, st2, t2)) :
    r1.status = "stored".data ∧ r1.inserted = some true ∧
      r2.status = "stored".data ∧ r2.inserted = some false ∧
      r2.expense_id = r1.expense_id ∧ st2 = st1 ∧
      (st1.rows.filter fun r => r.update_id == uid).length = 1 ∧
      (st2.rows.filter fun r => r.update_id == uid).length = 1 := by
  have hfind : st.rows.find? (fun r => r.update_id == uid) = none := by
    rw [List.find?_eq_none]
    intro r hr
    simp [h r hr]
  have hfilter : st.rows.filter (fun r => r.update_id == uid) = [] := by
    rw [List.filter_eq_nil_iff]
    intro r hr
    simp [h r hr]
  have hcomp1 : store_expense st uid (some chat1) cat1 amt1 oy1 om1 raw1 src1 curr1 =
      (⟨"stored".data, none, some st.nextId, some true, some "queued".data,
        some (monthKey oy1 om1), some curr1⟩,
       ⟨st.rows ++ [⟨st.nextId, uid, chat1, cat1, amt1, curr1, oy1, om1, monthKey oy1 om1,
         raw1, src1⟩], st.nextId + 1⟩,
       [⟨st.nextId, chat1, cat1, amt1, curr1, monthKey oy1 om1, src1, raw1⟩]) := by
    unfold store_expense insert_expense
    rw [hfind]
  rw [hcomp1] at h1
  injection h1 with ha1 hrest1
  injection hrest1 with hb1 hc1
  subst ha1 hb1
  have hfind2 : (st.rows ++ [(⟨st.nextId, uid, chat1, cat1, amt1, curr1, oy1, om1,
      monthKey oy1 om1, raw1, src1⟩ : ExpenseRow)]).find? (fun r => r.update_id == uid)
      = some ⟨st.nextId, uid, chat1, cat1, amt1, curr1, oy1, om1, monthKey oy1 om1,
        raw1, src1⟩ := by
    rw [find?_append_of_none _ _ hfind]
    simp [List.find?_cons]
  have hcomp2 : store_expense
      (⟨st.rows ++ [⟨st.nextId, uid, chat1, cat1, amt1, curr1, oy1, om1, monthKey oy1 om1,
        raw1, src1⟩], st.nextId + 1⟩ : LedgerState)
      uid (some chat2) cat2 amt2 oy2 om2 raw2 src2 curr2 =
      (⟨"stored".data, none, some st.nextId, some false, some "queued".data,
        some (monthKey oy2 om2), some curr2⟩,
       ⟨st.rows ++ [⟨st.nextId, uid, chat1, cat1, amt1, curr1, oy1, om1, monthKey oy1 om1,
         raw1, src1⟩], st.nextId + 1⟩,
       [⟨st.nextId, chat2, cat2, amt2, curr2, monthKey oy2 om2, src2, raw2⟩]) := by
    unfold store_expense insert_expense
    rw [hfind2]
  rw [hcomp2] at h2
  injection h2 with ha2 hrest2
  injection hrest2 with hb2 hc2
  subst ha2 hb2
  have hflen : ((st.rows ++ [(⟨st.nextId, uid, chat1, cat1, amt1, curr1, oy1, om1,
      monthKey oy1 om1, raw1, src1⟩ : ExpenseRow)]).filter
        fun r => r.update_id == uid).length = 1 := by
    rw [List.filter_append, hfilter]
    simp
  exact ⟨rfl, rfl, rfl, rfl, rfl, rfl, hflen, hflen⟩

/-- Witness for C1: two concrete stores with `update_id = 7` on an empty
ledger. -/
theorem C1_store_idempotent_witness :
    (⟨"stored".data, none, some 1, some true, some "queued".data,
        some (monthKey 2026 2), some "ARS".data⟩ : StoreResult).status = "stored".data ∧
    (⟨"stored".data, none, some 1, some true, some "queued".data,
        some (monthKey 2026 2), some "ARS".data⟩ : StoreResult).inserted = some true ∧
    (⟨"stored".data, none, some 1, some false, some "queued".data,
        some (monthKey 2026 3), some "ARS".data⟩ : StoreResult).status = "stored".data ∧
    (⟨"stored".data, none, some 1, some false, some "queued".data,
        some (monthKey 2026 3), some "ARS".data⟩ : StoreResult).inserted = some false ∧
    (⟨"stored".data, none, some 1, some false, some "queued".data,
        some (monthKey 2026 3), some "ARS".data⟩ : StoreResult).expense_id =
      (⟨"stored".data, none, some 1, some true, some "queued".data,
        some (monthKey 2026 2), some "ARS".data⟩ : StoreResult).expense_id ∧
    (⟨[⟨1, 7, 5, "salida".data, 2500, "ARS".data, 2026, 2, monthKey 2026 2, "a".data,
        "llm".data⟩], 2⟩ : LedgerState) =
      ⟨[⟨1, 7, 5, "salida".data, 2500, "ARS".data, 2026, 2, monthKey 2026 2, "a".data,
        "llm".data⟩], 2⟩ ∧
    ((⟨[⟨1, 7, 5, "salida".data, 2500, "ARS".data, 2026, 2, monthKey 2026 2, "a".data,
        "llm".data⟩], 2⟩ : LedgerState).rows.filter fun r => r.update_id == 7).length = 1 ∧
    ((⟨[⟨1, 7, 5, "salida".data, 2500, "ARS".data, 2026, 2, monthKey 2026 2, "a".data,
        "llm".data⟩], 2⟩ : LedgerState).rows.filter fun r => r.update_id == 7).length = 1 :=
  C1_store_idempotent ⟨[], 1⟩ 7 5 5 "salida".data "ocio".data 2500 999 2026 2 2026 3
    "a".data "b".data "llm".data "llm".data "ARS".data "ARS".data
    ⟨"stored".data, none, some 1, some true, some "queued".data,
      some (monthKey 2026 2), some "ARS".data⟩
    ⟨"stored".data, none, some 1, some false, some "queued".data,
      some (monthKey 2026 3), some "ARS".data⟩
    ⟨[⟨1, 7, 5, "salida".data, 2500, "ARS".data, 2026, 2, monthKey 2026 2, "a".data,
      "llm".data⟩], 2⟩
    ⟨[⟨1, 7, 5, "salida".data, 2500, "ARS".data, 2026, 2, monthKey 2026 2, "a".data,
      "llm".data⟩], 2⟩
    [⟨1, 5, "salida".data, 2500, "ARS".data, monthKey 2026 2, "llm".data, "a".data⟩]
    [⟨1, 5, "ocio".data, 999, "ARS".data, monthKey 2026 3, "llm".data, "b".data⟩]
    (by decide) (by decide) (by decide)

/-- **C10.** A `store_expense` call with `chat_id` absent returns exactly
`{"status": "skipped", "reason": "missing_chat_id"}` — no record id, no
inserted flag, no month_key, no vector status — inserts no ledger row,
schedules no vector-indexing task, and leaves the ledger state
unchanged. -/
theorem C10_store_skips_without_chat_id (st : LedgerState) (uid : ℤ)
    (category : List Char) (amount : ℚ) (oy om : ℕ) (raw src curr : List Char) :
    store_expense st uid none category amount oy om raw src curr =
      (⟨"skipped".data, some "missing_chat_id".data, none, none, none, none, none⟩,
       st, []) :=
  rfl

/-- **C8.** For every environment (hence regardless of what the embedding
service or the vector index would do), every result limit and every
text, `retrieve_similar_expenses` returns the empty list without error
and without making any external call whenever `chat_id` is absent or the
whitespace-normalised text is empty. -/
theorem C8_retrieve_empty_guard (env : RetrieveEnv) (chatId : Option ℤ)
    (text : List Char) (n : ℕ)
    (h : chatId = none ∨ collapse_spaces text = []) :
    retrieve_similar_expenses env chatId text n = (.ok [], []) := by
  rcases h with h | h
  · subst h; rfl
  · cases chatId with
    | none => rfl
    | some c =>
      unfold retrieve_similar_expenses
      simp only [h, if_true]

/-- Witness for C8 at concrete inputs: an environment whose services
always fail, with a missing chat id and, separately, a blank text. -/
theorem C8_retrieve_empty_guard_witness :
    retrieve_similar_expenses ⟨fun _ => .error "down".data, fun _ _ _ => .error "down".data⟩
        none "hola".data 3 = (.ok [], []) ∧
    retrieve_similar_expenses ⟨fun _ => .error "down".data, fun _ _ _ => .error "down".data⟩
        (some 5) "   ".data 3 = (.ok [], []) :=
  ⟨C8_retrieve_empty_guard _ _ _ _ (Or.inl rfl),
   C8_retrieve_empty_guard _ _ _ _ (Or.inr (by decide))⟩

/-- **C9.** The neighbour-prior correction agrees with the input expense
on every field except possibly the category: a `None` expense passes
through, and for a present expense the amount (the only other field of
the expense dict) is never changed. -/
theorem C9_neighbor_prior_frame (cfg : PriorConfig) (sims : List SimilarExample) :
    apply_neighbor_prior cfg none sims = none ∧
      ∀ e : Expense,
        apply_neighbor_prior cfg (some e) sims = some (adjustNeighborPrior cfg e sims) ∧
          (adjustNeighborPrior cfg e sims).amount = e.amount := by
  refine ⟨rfl, fun e => ⟨rfl, ?_⟩⟩
  unfold adjustNeighborPrior
  rcases hnm : neighborMajority cfg.topK sims with ⟨_ | dom, ratio, considered⟩
  · rfl
  · dsimp only
    split_ifs <;> rfl

/-- **C2**, counterexample: the pipeline has no deterministic rule path.
For the spec's own rule-pattern message `"Tipo de gasto: salida, gasto:
2500"`, the handler invokes the LLM extractor and the stored record's
`source` is `"llm"`, not `"rule"`. -/
theorem C2_no_rule_path_counterexample :
    let r := handleTextMessage defaultPriorConfig
      ⟨.ok [], .ok (some ⟨"salida".data, 2500⟩)⟩ ⟨[], 1⟩ 7 (some 5)
      "Tipo de gasto: salida, gasto: 2500".data 2 2026 "ARS".data
    r.llmCalled = true ∧ r.ledger.rows.map ExpenseRow.source = ["llm".data] ∧
      "llm".data ≠ "rule".data := by decide

/-- **C2**, amended: every message that does not parse as a query intent
— rule-pattern messages included — is processed by invoking the LLM
extractor, and any ledger row the handling adds carries
`source = "llm"`; no `source = "rule"` record can be produced. -/
theorem C2_amended_llm_only (cfg : PriorConfig) (env : PipelineEnv) (st : LedgerState)
    (uid : ℤ) (chatId : Option ℤ) (text : List Char) (nm ny : ℕ) (curr : List Char)
    (h : parse_query_intent text nm ny = none) :
    (handleTextMessage cfg env st uid chatId text nm ny curr).llmCalled = true ∧
      ∀ row ∈ (handleTextMessage cfg env st uid chatId text nm ny curr).ledger.rows,
        row ∈ st.rows ∨ row.source = "llm".data := by
  have hinv : (extractExpenseWithContext cfg env).llmInvoked = true := by
    unfold extractExpenseWithContext
    rcases env.llmExtract with e | o
    · rfl
    · dsimp only
      split <;> rfl
  unfold handleTextMessage
  rw [h]
  dsimp only
  rcases hex : (extractExpenseWithContext cfg env).expense with _ | e
  · exact ⟨hinv, fun row hr => Or.inl hr⟩
  · dsimp only
    rcases chatId with _ | chat
    · exact ⟨hinv, fun row hr => Or.inl hr⟩
    · unfold store_expense insert_expense
      dsimp only
      rcases hfind : st.rows.find? (fun r => r.update_id == uid) with _ | rr
      · rw [hfind]
        refine ⟨hinv, fun row hr => ?_⟩
        dsimp only at hr
        rcases List.mem_append.mp hr with hl | hl
        · exact Or.inl hl
        · right
          rcases List.mem_singleton.mp hl with rfl
          rfl
      · rw [hfind]
        exact ⟨hinv, fun row hr => Or.inl hr⟩

/-- Witness for the amended C2 at a concrete non-query message. -/
theorem C2_amended_llm_only_witness :
    (handleTextMessage defaultPriorConfig ⟨.ok [], .error "down".data⟩ ⟨[], 1⟩ 3 (some 9)
        "hola".data 4 2026 "ARS".data).llmCalled = true ∧
      ∀ row ∈ (handleTextMessage defaultPriorConfig ⟨.ok [], .error "down".data⟩ ⟨[], 1⟩ 3
          (some 9) "hola".data 4 2026 "ARS".data).ledger.rows,
        row ∈ (⟨[], 1⟩ : LedgerState).rows ∨ row.source = "llm".data :=
  C2_amended_llm_only defaultPriorConfig ⟨.ok [], .error "down".data⟩ ⟨[], 1⟩ 3 (some 9)
    "hola".data 4 2026 "ARS".data (by decide)

/-- **C3**, counterexample: `normalize_amount "0.0001"` returns the
amount `0`, which is neither "no amount" nor positive — positivity is
checked before the 2-decimal rounding, so values below `0.005` round to
a non-positive result. -/
theorem C3_normalize_amount_counterexample :
    normalize_amount "0.0001".data = some 0 ∧ ¬(0 : ℚ) < 0 :=
  ⟨by decide, lt_irrefl 0⟩

/-- **C3**, amended: the spec's test vector holds — `"1.234,56"` and
`"1,234.56"` → `1234.56`, `"2 mil"` → `2000.00`, `"-5"`, `"0"`, `""` →
no amount — and, for every input, the result is either no amount or the
2-decimal rounding of a positive pre-rounding value, hence nonnegative
(but `0`, not positive, when that value is below `0.005`). -/
theorem C3_normalize_amount_amended :
    normalize_amount "1.234,56".data = some (1234.56 : ℚ) ∧
    normalize_amount "1,234.56".data = some (1234.56 : ℚ) ∧
    normalize_amount "2 mil".data = some (2000.00 : ℚ) ∧
    normalize_amount "-5".data = none ∧
    normalize_amount "0".data = none ∧
    normalize_amount "".data = none ∧
    ∀ s : List Char, normalize_amount s = none ∨
      ∃ v : ℚ, 0 < v ∧ normalize_amount s = some (round2 v) ∧ 0 ≤ round2 v := by
  refine ⟨?_, ?_, ?_, by decide, by decide, by decide, normalize_amount_shape⟩
  · rw [show (1234.56 : ℚ) = Rat.divInt 123456 100 by rw [Rat.divInt_eq_div]; norm_num]
    decide
  · rw [show (1234.56 : ℚ) = Rat.divInt 123456 100 by rw [Rat.divInt_eq_div]; norm_num]
    decide
  · rw [show (2000.00 : ℚ) = 2000 by norm_num]
    decide

/-- **C4**, counterexample: with only commas present and more than one of
them, the claim's "otherwise the comma is decimal" fails — on `"1,2,3"`
the code removes all commas as thousands separators (parsing to `123`),
while the claim's policy would make the comma a decimal point, yielding
`"1.2.3"`, which does not parse as a number at all. -/
theorem C4_separator_counterexample :
    specSeparatorResolution "1,2,3".data = "1.2.3".data ∧
    resolveSeparators "1,2,3".data = "123".data ∧
    "1.2.3".data ≠ "123".data ∧
    normalize_amount "1,2,3".data = some 123 ∧
    pyFloat (specSeparatorResolution "1,2,3".data) = none := by decide

/-- **C4**, amended: the separator-resolution rules of
`normalize_amount`.  When both `,` and `.` occur, the one occurring
later is the decimal point and the other is removed as a thousands
separator.  When only one of them occurs, and it occurs exactly once
(splitting the string as `i ++ sep :: f`): a trailing group of ≤ 2
digits makes it decimal; a trailing group of exactly 3 with an integer
part of ≤ 3 characters makes it a thousands separator; otherwise it is
decimal.  When it occurs more than once, it is always treated as a
thousands separator (all occurrences removed). -/
theorem C4_separator_rules (s i f : List Char) :
    (',' ∈ s → '.' ∈ s → rfind ',' s > rfind '.' s →
      resolveSeparators s = toDot ',' (removeAll '.' s)) ∧
    (',' ∈ s → '.' ∈ s → rfind '.' s > rfind ',' s →
      resolveSeparators s = removeAll ',' s) ∧
    ('.' ∉ s → s = i ++ ',' :: f → ',' ∉ i → ',' ∉ f → f.length ≤ 2 →
      resolveSeparators s = toDot ',' s) ∧
    ('.' ∉ s → s = i ++ ',' :: f → ',' ∉ i → ',' ∉ f → f.length = 3 → i.length ≤ 3 →
      resolveSeparators s = removeAll ',' s) ∧
    ('.' ∉ s → s = i ++ ',' :: f → ',' ∉ i → ',' ∉ f → 2 < f.length →
      ¬(f.length = 3 ∧ i.length ≤ 3) → resolveSeparators s = toDot ',' s) ∧
    ('.' ∉ s → 2 ≤ s.count ',' → resolveSeparators s = removeAll ',' s) ∧
    (',' ∉ s → s = i ++ '.' :: f → '.' ∉ i → '.' ∉ f → f.length ≤ 2 →
      resolveSeparators s = s) ∧
    (',' ∉ s → s = i ++ '.' :: f → '.' ∉ i → '.' ∉ f → f.length = 3 → i.length ≤ 3 →
      resolveSeparators s = removeAll '.' s) ∧
    (',' ∉ s → s = i ++ '.' :: f → '.' ∉ i → '.' ∉ f → 2 < f.length →
      ¬(f.length = 3 ∧ i.length ≤ 3) → resolveSeparators s = s) ∧
    (',' ∉ s → 2 ≤ s.count '.' → resolveSeparators s = removeAll '.' s) := by
  refine ⟨?_, ?_, ?_, ?_, ?_, ?_, ?_, ?_, ?_, ?_⟩
  · intro h1 h2 h3
    unfold resolveSeparators
    rw [if_pos ⟨h1, h2⟩, if_pos h3]
  · intro h1 h2 h3
    unfold resolveSeparators
    rw [if_pos ⟨h1, h2⟩, if_neg (by omega)]
  · intro hdot hs hi hf hlen
    subst hs
    have hmem : ',' ∈ i ++ ',' :: f := List.mem_append_right _ (List.mem_cons_self _ _)
    unfold resolveSeparators
    rw [if_neg fun hb => hdot hb.2, if_pos hmem, splitSep_middle hi hf]
    dsimp only
    rw [if_pos hlen]
  · intro hdot hs hi hf hflen hilen
    subst hs
    have hmem : ',' ∈ i ++ ',' :: f := List.mem_append_right _ (List.mem_cons_self _ _)
    unfold resolveSeparators
    rw [if_neg fun hb => hdot hb.2, if_pos hmem, splitSep_middle hi hf]
    dsimp only
    rw [if_neg (by omega), if_pos ⟨hflen, hilen⟩]
  · intro hdot hs hi hf hflen hnot
    subst hs
    have hmem : ',' ∈ i ++ ',' :: f := List.mem_append_right _ (List.mem_cons_self _ _)
    unfold resolveSeparators
    rw [if_neg fun hb => hdot hb.2, if_pos hmem, splitSep_middle hi hf]
    dsimp only
    rw [if_neg (by omega), if_neg hnot]
  · intro hdot hcount
    have hmem : ',' ∈ s := by
      have : 0 < s.count ',' := by omega
      exact List.count_pos_iff.mp this
    unfold resolveSeparators
    rw [if_neg fun hb => hdot hb.2, if_pos hmem]
    have h3 : 3 ≤ (splitSep ',' s).length := by
      rw [splitSep_length]
      omega
    rcases hsp : splitSep ',' s with _ | ⟨a, _ | ⟨b, _ | ⟨c3, t⟩⟩⟩ <;>
      rw [hsp] at h3
    all_goals simp only [List.length_cons, List.length_nil] at h3
    all_goals omega
  · intro hcomma hs hi hf hlen
    subst hs
    have hmem : '.' ∈ i ++ '.' :: f := List.mem_append_right _ (List.mem_cons_self _ _)
    unfold resolveSeparators
    rw [if_neg fun hb => hcomma hb.1, if_neg hcomma, if_pos hmem, splitSep_middle hi hf]
    dsimp only
    rw [if_pos hlen]
  · intro hcomma hs hi hf hflen hilen
    subst hs
    have hmem : '.' ∈ i ++ '.' :: f := List.mem_append_right _ (List.mem_cons_self _ _)
    unfold resolveSeparators
    rw [if_neg fun hb => hcomma hb.1, if_neg hcomma, if_pos hmem, splitSep_middle hi hf]
    dsimp only
    rw [if_neg (by omega), if_pos ⟨hflen, hilen⟩]
  · intro hcomma hs hi hf hflen hnot
    subst hs
    have hmem : '.' ∈ i ++ '.' :: f := List.mem_append_right _ (List.mem_cons_self _ _)
    unfold resolveSeparators
    rw [if_neg fun hb => hcomma hb.1, if_neg hcomma, if_pos hmem, splitSep_middle hi hf]
    dsimp only
    rw [if_neg (by omega), if_neg hnot]
  · intro hcomma hcount
    have hmem : '.' ∈ s := by
      have : 0 < s.count '.' := by omega
      exact List.count_pos_iff.mp this
    unfold resolveSeparators
    rw [if_neg fun hb => hcomma hb.1, if_neg hcomma, if_pos hmem]
    have h3 : 3 ≤ (splitSep '.' s).length := by
      rw [splitSep_length]
      omega
    rcases hsp : splitSep '.' s with _ | ⟨a, _ | ⟨b, _ | ⟨c3, t⟩⟩⟩ <;>
      rw [hsp] at h3
    all_goals simp only [List.length_cons, List.length_nil] at h3
    all_goals omega

/-- Witness for the amended C4, one instance per rule family. -/
theorem C4_separator_rules_witness :
    resolveSeparators "1.234,56".data = toDot ',' (removeAll '.' "1.234,56".data) ∧
    resolveSeparators "1,23".data = toDot ',' "1,23".data ∧
    resolveSeparators "123,456".data = removeAll ',' "123,456".data ∧
    resolveSeparators "1,2,3".data = removeAll ',' "1,2,3".data ∧
    resolveSeparators "12.5".data = "12.5".data :=
  ⟨(C4_separator_rules "1.234,56".data [] []).1 (by decide) (by decide) (by decide),
   (C4_separator_rules "1,23".data "1".data "23".data).2.2.1 (by decide) (by decide)
     (by decide) (by decide) (by decide),
   (C4_separator_rules "123,456".data "123".data "456".data).2.2.2.1 (by decide) (by decide)
     (by decide) (by decide) (by decide) (by decide),
   (C4_separator_rules "1,2,3".data [] []).2.2.2.2.2.1 (by decide) (by decide),
   (C4_separator_rules "12.5".data "12".data "5".data).2.2.2.2.2.2.1 (by decide) (by decide)
     (by decide) (by decide) (by decide)⟩

/-- **C5.** The query-intent gate.  Any text whose normalised form
matches the rule grammar `"tipo de gasto: <category>, gasto: <amount>"`
never parses as a query intent (mutual exclusivity with expense entry);
and any text that does produce an intent must have an analysis keyword
or a trailing `?`, and an expense-domain keyword or a month reference
(relative phrase or month name). -/
theorem C5_query_gate :
    (∀ (t c a : List Char) (nm ny : ℕ),
        normalizeText t = "tipo de gasto: ".data ++ c ++ ", gasto: ".data ++ a →
        parse_query_intent t nm ny = none) ∧
    (∀ (t : List Char) (nm ny : ℕ), parse_query_intent t nm ny ≠ none →
        (hasAnalysisHint (normalizeText t) = true ∨
          endsWithQuestion (normalizeText t) = true) ∧
        (hasExpenseContext (normalizeText t) = true ∨
          hasMonthHint (normalizeText t) = true)) := by
  constructor
  · intro t c a nm ny h
    unfold parse_query_intent
    rw [h]
    rfl
  · intro t nm ny h
    by_cases hc : isQueryCandidate (normalizeText t) = true
    · unfold isQueryCandidate at hc
      by_cases hrule : (containsSub "tipo de gasto".data (normalizeText t) &&
          containsSub "gasto".data (normalizeText t)) = true
      · rw [if_pos hrule] at hc
        exact absurd hc (by simp)
      · rw [if_neg hrule] at hc
        simp only [Bool.and_eq_true, Bool.or_eq_true] at hc
        exact ⟨hc.1, hc.2⟩
    · exfalso
      apply h
      unfold parse_query_intent
      rw [if_neg hc]

/-- Witness for C5: the spec's rule-pattern string is rejected and its
query example passes the gate. -/
theorem C5_query_gate_witness :
    parse_query_intent "Tipo de gasto: salida, gasto: 2500".data 7 2026 = none ∧
    ((hasAnalysisHint (normalizeText "cuanto gaste en salidas en febrero?".data) = true ∨
        endsWithQuestion (normalizeText "cuanto gaste en salidas en febrero?".data) = true) ∧
      (hasExpenseContext (normalizeText "cuanto gaste en salidas en febrero?".data) = true ∨
        hasMonthHint (normalizeText "cuanto gaste en salidas en febrero?".data) = true)) :=
  ⟨C5_query_gate.1 "Tipo de gasto: salida, gasto: 2500".data "salida".data "2500".data 7 2026
      (by decide),
   C5_query_gate.2 "cuanto gaste en salidas en febrero?".data 7 2026 (by decide)⟩

/-- **C6.** The neighbour-prior correction never changes the category to
unclear; it overrides only to the dominant non-unclear neighbour
category, exactly when one of the two claim branches holds (current
category unclear with the unclear thresholds met, or current category
different from the dominant with the override thresholds met); in every
other situation the expense is returned unchanged. -/
theorem C6_neighbor_prior_override_rules (cfg : PriorConfig) (e : Expense)
    (sims : List SimilarExample) :
    ((adjustNeighborPrior cfg e sims).category ≠ e.category →
        (adjustNeighborPrior cfg e sims).category ≠ "unclear".data) ∧
    (adjustNeighborPrior cfg e sims ≠ e →
        ∃ dom, (neighborMajority cfg.topK sims).1 = some dom ∧ dom ≠ "unclear".data ∧
          adjustNeighborPrior cfg e sims = { e with category := dom } ∧
          (unclearOverrideCond cfg e (neighborMajority cfg.topK sims).2.2
              (neighborMajority cfg.topK sims).2.1 ∨
            mismatchOverrideCond cfg e dom (neighborMajority cfg.topK sims).2.2
              (neighborMajority cfg.topK sims).2.1)) ∧
    (∀ dom, (neighborMajority cfg.topK sims).1 = some dom → dom ≠ "unclear".data →
        (unclearOverrideCond cfg e (neighborMajority cfg.topK sims).2.2
            (neighborMajority cfg.topK sims).2.1 ∨
          mismatchOverrideCond cfg e dom (neighborMajority cfg.topK sims).2.2
            (neighborMajority cfg.topK sims).2.1) →
        adjustNeighborPrior cfg e sims = { e with category := dom }) ∧
    (((neighborMajority cfg.topK sims).1 = none ∨
        ∀ dom, (neighborMajority cfg.topK sims).1 = some dom →
          dom = "unclear".data ∨
            (¬unclearOverrideCond cfg e (neighborMajority cfg.topK sims).2.2
                (neighborMajority cfg.topK sims).2.1 ∧
              ¬mismatchOverrideCond cfg e dom (neighborMajority cfg.topK sims).2.2
                (neighborMajority cfg.topK sims).2.1)) →
      adjustNeighborPrior cfg e sims = e) := by
  rcases hnm : neighborMajority cfg.topK sims with ⟨_ | dom, ratio, considered⟩
  · have hadj : adjustNeighborPrior cfg e sims = e := by
      unfold adjustNeighborPrior
      rw [hnm]
    dsimp only
    refine ⟨?_, ?_, ?_, ?_⟩
    · intro hne
      rw [hadj] at hne
      exact absurd rfl hne
    · intro hne
      rw [hadj] at hne
      exact absurd rfl hne
    · intro dom' hd
      exact absurd hd (by simp)
    · intro _
      exact hadj
  · have hadj : adjustNeighborPrior cfg e sims =
        (if dom = "unclear".data then e
         else if normalize_category e.category = "unclear".data ∧
             cfg.minConsideredUnclear ≤ considered ∧ cfg.ratioUnclear ≤ ratio then
           { e with category := dom }
         else if normalize_category e.category ≠ dom ∧
             cfg.minConsideredOverride ≤ considered ∧ cfg.ratioOverride ≤ ratio then
           { e with category := dom }
         else e) := by
      unfold adjustNeighborPrior
      rw [hnm]
    dsimp only
    by_cases h1 : dom = "unclear".data
    · rw [if_pos h1] at hadj
      refine ⟨?_, ?_, ?_, ?_⟩
      · intro hne
        rw [hadj] at hne
        exact absurd rfl hne
      · intro hne
        rw [hadj] at hne
        exact absurd rfl hne
      · intro dom' hd hne
        rw [Option.some.injEq] at hd
        subst hd
        exact absurd h1 hne
      · intro _
        exact hadj
    · rw [if_neg h1] at hadj
      by_cases h2 : unclearOverrideCond cfg e considered ratio
      · rw [if_pos h2] at hadj
        refine ⟨?_, ?_, ?_, ?_⟩
        · intro _
          rw [hadj]
          exact h1
        · intro _
          exact ⟨dom, rfl, h1, hadj, Or.inl h2⟩
        · intro dom' hd _ _
          rw [Option.some.injEq] at hd
          subst hd
          exact hadj
        · intro h4
          rcases h4 with h4 | h4
          · exact absurd h4 (by simp)
          · rcases h4 dom rfl with h4 | ⟨h4a, _⟩
            · exact absurd h4 h1
            · exact absurd h2 h4a
      · rw [if_neg h2] at hadj
        by_cases h3 : mismatchOverrideCond cfg e dom considered ratio
        · rw [if_pos h3] at hadj
          refine ⟨?_, ?_, ?_, ?_⟩
          · intro _
            rw [hadj]
            exact h1
          · intro _
            exact ⟨dom, rfl, h1, hadj, Or.inr h3⟩
          · intro dom' hd _ _
            rw [Option.some.injEq] at hd
            subst hd
            exact hadj
          · intro h4
            rcases h4 with h4 | h4
            · exact absurd h4 (by simp)
            · rcases h4 dom rfl with h4 | ⟨_, h4b⟩
              · exact absurd h4 h1
              · exact absurd h3 h4b
        · rw [if_neg h3] at hadj
          refine ⟨?_, ?_, ?_, ?_⟩
          · intro hne
            rw [hadj] at hne
            exact absurd rfl hne
          · intro hne
            rw [hadj] at hne
            exact absurd rfl hne
          · intro dom' hd hne hbr
            rw [Option.some.injEq] at hd
            subst hd
            rcases hbr with hbr | hbr
            · exact absurd hbr h2
            · exact absurd hbr h3
          · intro _
            exact hadj

/-- Witness for C6: the spec's test — three obligation-voting neighbours
and a current unclear category, default thresholds — yields an override
to obligation. -/
theorem C6_neighbor_prior_override_rules_witness :
    adjustNeighborPrior defaultPriorConfig ⟨"unclear".data, 100⟩
        [⟨"d1".data, some "obligacion".data, none, none, none⟩,
         ⟨"d2".data, some "obligacion".data, none, none, none⟩,
         ⟨"d3".data, some "obligacion".data, none, none, none⟩] =
      ⟨"obligacion".data, 100⟩ :=
  (C6_neighbor_prior_override_rules defaultPriorConfig ⟨"unclear".data, 100⟩
      [⟨"d1".data, some "obligacion".data, none, none, none⟩,
       ⟨"d2".data, some "obligacion".data, none, none, none⟩,
       ⟨"d3".data, some "obligacion".data, none, none, none⟩]).2.2.1
    "obligacion".data (by decide) (by decide) (Or.inl (by decide))

/-- **C7.** The money formatter, for every nonnegative amount, renders
the 2-decimal-rounded value with `.` as the thousands separator and `,`
as the decimal separator and suppresses a trailing `",00"` (this is
`specRenderMoney`, phrased from the specification); in particular
`format_amount 1000 = "1.000"` and `format_amount 1000.5 = "1.000,50"`. -/
theorem C7_money_formatting :
    (∀ q : ℚ, 0 ≤ q →
        format_amount q = specRenderMoney (roundHalfEven (ratMul q 100)).toNat) ∧
    format_amount 1000 = "1.000".data ∧
    format_amount (1000.5 : ℚ) = "1.000,50".data := by
  refine ⟨?_, by decide, ?_⟩
  · intro q hq
    have hq100 : (0 : ℚ) ≤ ratMul q 100 := by
      rw [ratMul_eq]
      exact mul_nonneg hq (by norm_num)
    have hn0 : 0 ≤ roundHalfEven (ratMul q 100) := roundHalfEven_nonneg hq100
    simp only [format_amount]
    set n := roundHalfEven (ratMul q 100) with hn
    have hNat : n.natAbs = n.toNat := by omega
    have hB : n.natAbs % 100 < 100 := Nat.mod_lt _ (by norm_num)
    have hpf : pyFormatCents n =
        groupedDigits ',' (n.natAbs / 100) ++ '.' :: twoDigits (n.natAbs % 100) := by
      unfold pyFormatCents
      rw [if_neg (not_lt.mpr hn0)]
      simp only [List.nil_append]
    have hsw : (((pyFormatCents n).map commaToUnderscore).map dotToComma).map underscoreToDot
        = groupedDigits '.' (n.natAbs / 100) ++ ',' :: twoDigits (n.natAbs % 100) := by
      rw [List.map_map, List.map_map, hpf]
      simp only [List.map_append, List.map_cons]
      rw [map_swapChain_groupedDigits, swapChain_dot, map_swapChain_twoDigits hB]
    rw [hsw]
    by_cases hB0 : n.natAbs % 100 = 0
    · rw [hB0]
      rw [show (',' :: twoDigits 0 : List Char) = ",00".data from by decide]
      rw [endsWith_append_self, if_pos rfl]
      rw [List.length_append]
      rw [show (",00".data : List Char).length = 3 from rfl]
      rw [Nat.add_sub_cancel, List.take_left]
      unfold specRenderMoney
      rw [show n.toNat % 100 = 0 from by omega]
      rw [if_pos rfl, List.append_nil, hNat]
    · have hcond : endsWith ",00".data (groupedDigits '.' (n.natAbs / 100) ++
          ',' :: twoDigits (n.natAbs % 100)) = false := by
        unfold endsWith
        rw [List.reverse_append]
        rw [show (',' :: twoDigits (n.natAbs % 100)).reverse
            = digitChar (n.natAbs % 100 % 10) :: digitChar (n.natAbs % 100 / 10) :: [',']
          from rfl]
        simp only [isPrefixList]
        rw [zero_beq_digitChar (by omega), zero_beq_digitChar (by omega)]
        by_cases h10 : n.natAbs % 100 % 10 = 0
        · have h01 : ¬n.natAbs % 100 / 10 = 0 := by omega
          simp [h10, h01]
        · simp [h10]
      rw [hcond, if_neg (by simp)]
      unfold specRenderMoney
      rw [if_neg (by omega : ¬n.toNat % 100 = 0), hNat]
  · rw [show (1000.5 : ℚ) = Rat.divInt 2001 2 by rw [Rat.divInt_eq_div]; norm_num]
    decide

/-- Witness for C7's universal part at the concrete amount `1000.5`. -/
theorem C7_money_formatting_witness :
    format_amount (Rat.divInt 2001 2) =
      specRenderMoney (roundHalfEven (ratMul (Rat.divInt 2001 2) 100)).toNat :=
  C7_money_formatting.1 (Rat.divInt 2001 2) (by decide)

end RagAssistant
